import Mathlib

/-!
# Verification of the moviedb-effect request pipeline

Shallow embedding, in Lean 4, of the core request-execution pipeline of the
`moviedb-effect` repository:

* the error taxonomy and HTTP-status classifier
  (`packages/core/src/errors.ts`: `fromHttpStatus`, `toNetworkError`);
* the retry wrapper and its backoff schedule
  (`http-client.ts`: `withRetry`, `executeJson`);
* the metrics emission around a logical request (`executeJson`);
* the pagination engine
  (`streaming.ts`: `paginatedStream`, `collectAllPages`, `mapPaginatedEffect`),
  modelled as a demand-driven (pull-based) unfolding of
  `Stream.paginateEffect`, so that laziness properties are expressible.

Effectful TypeScript code is embedded as explicit state passing: an operation
that may be attempted repeatedly is a function from the attempt index to an
`Except` outcome, a stream is run by a fuel-indexed pull loop that records
which pages were fetched, and the bounded-concurrency mapper is a small state
machine driven by an adversarial completion schedule.
-/

namespace MovieDb

/-! ## Error taxonomy (`packages/core/src/errors.ts`)

Each `Data.TaggedError` class becomes one constructor.  Optional fields
(`url?`, `retryAfter?`, ...) become `Option`s.  The `id` field of
`NotFoundError` has TypeScript type `string | number`, embedded as a sum.
`resetTime?: Date` is embedded as an optional timestamp in milliseconds.
`cause?: unknown` is embedded as an optional string (only its presence and
message are ever observed by the pipeline). -/

/-- TypeScript `string | number`, as used by `NotFoundError.id`. -/
inductive StrOrNum where
  | str (s : String)
  | num (n : Int)
deriving DecidableEq, Repr

/-- The closed union `MovieApiErrors` of `packages/core/src/errors.ts`
(the SDK's `errors.ts` re-exports the same taxonomy under the name
`MovieDbErrors`, with `MovieApiError` called `MovieDbError`). -/
inductive MovieApiErrors where
  | MovieApiError (message : String) (cause : Option String) (api : Option String)
  | NetworkError (message : String) (cause : Option String) (url : Option String)
  | AuthenticationError (message : String) (cause : Option String)
  | RateLimitError (message : String) (retryAfter : Option Nat) (limit : Option Nat)
      (remaining : Option Nat) (resetTime : Option Nat)
  | NotFoundError (message : String) (resource : String) (id : StrOrNum)
  | ValidationError (message : String) (field : Option String) (value : Option String)
  | ServerError (message : String) (statusCode : Nat) (cause : Option String)
  | TimeoutError (message : String) (timeoutMs : Nat)
deriving DecidableEq, Repr

namespace MovieApiErrors

/-- The `_tag` discriminant of each `Data.TaggedError` class. -/
def tag : MovieApiErrors → String
  | MovieApiError .. => "MovieApiError"
  | NetworkError .. => "NetworkError"
  | AuthenticationError .. => "AuthenticationError"
  | RateLimitError .. => "RateLimitError"
  | NotFoundError .. => "NotFoundError"
  | ValidationError .. => "ValidationError"
  | ServerError .. => "ServerError"
  | TimeoutError .. => "TimeoutError"

/-- The `retryAfter` field, defined on `RateLimitError` only. -/
def retryAfterField : MovieApiErrors → Option Nat
  | RateLimitError _ retryAfter _ _ _ => retryAfter
  | _ => none

end MovieApiErrors

/-- The optional `context` argument of `fromHttpStatus`. -/
structure ClassifyContext where
  resource : Option String
  id : Option StrOrNum
  retryAfter : Option Nat
  api : Option String
deriving Repr

/-- `context?.field` on a possibly-absent context object. -/
def ctxGet {α : Type} (context : Option ClassifyContext) (f : ClassifyContext → Option α) :
    Option α :=
  match context with
  | none => none
  | some c => f c

/-- `fromHttpStatus` of `packages/core/src/errors.ts`: classify an HTTP
status code into the error taxonomy.  The `Match.when` chain is tried in
source order: 401/403, then 404, then 429, then 400/422, then ≥ 500, then
the generic fallback. -/
def fromHttpStatus (statusCode : Nat) (message : String)
    (context : Option ClassifyContext) : MovieApiErrors :=
  if statusCode = 401 ∨ statusCode = 403 then
    .AuthenticationError ("Authentication failed: " ++ message) none
  else if statusCode = 404 then
    .NotFoundError message ((ctxGet context ClassifyContext.resource).getD "unknown")
      ((ctxGet context ClassifyContext.id).getD (.str "unknown"))
  else if statusCode = 429 then
    .RateLimitError ("Rate limit exceeded: " ++ message)
      (ctxGet context ClassifyContext.retryAfter) none none none
  else if statusCode = 400 ∨ statusCode = 422 then
    .ValidationError ("Validation failed: " ++ message) none none
  else if 500 ≤ statusCode then
    .ServerError ("Server error: " ++ message) statusCode none
  else
    .MovieApiError ("HTTP " ++ toString statusCode ++ ": " ++ message) none
      (ctxGet context ClassifyContext.api)

/-- `toNetworkError` of `packages/core/src/errors.ts`. -/
def toNetworkError (errMessage : String) (url : Option String) : MovieApiErrors :=
  .NetworkError ("Network request failed: " ++ errMessage) (some errMessage) url

/-! ## The request executor's classification boundary (`executeJson`)

`executeJson` catches `ResponseError` with
`Effect.fail(fromHttpStatus(error.response.status, error.message))` — note:
no third argument, so the classifier receives no caller context (and in
particular no parsed `Retry-After` header). -/

/-- A transport-level HTTP response as the executor's error handler sees it:
a status code and, when the server sent one, a `Retry-After` header value. -/
structure HttpResponse where
  status : Nat
  retryAfterHeader : Option Nat
deriving Repr

/-- The classification `executeJson` performs on a non-2xx response
(`Effect.catchTags { ResponseError: ... }` in `http-client.ts`): it passes
only the status and the message to `fromHttpStatus`, never a context. -/
def executeJsonClassify (response : HttpResponse) (message : String) : MovieApiErrors :=
  fromHttpStatus response.status message none

/-! ## Retry policy (`withRetry` in `http-client.ts`)

`Effect.retry(effect, { times: 3, while, schedule })`: run the effect; on an
error `e`, retry when `while e` holds and fewer than `times` retries have
been used; otherwise fail with `e`.

The effectful operation is embedded as a function from the attempt index
(0-based) to that attempt's outcome. -/

/-- The `while` predicate of `withRetry`: retry exactly on the tags
`NetworkError`, `RateLimitError`, `ServerError`. -/
def retryWhile (error : MovieApiErrors) : Bool :=
  error.tag == "NetworkError" || error.tag == "RateLimitError" || error.tag == "ServerError"

/-- Retry loop of `Effect.retry`: `attempt` is the index of the attempt about
to run, `retriesLeft` the remaining retry budget.  Returns the final outcome
together with the total number of attempts made. -/
def retryLoop {A : Type} (op : Nat → Except MovieApiErrors A)
    (attempt retriesLeft : Nat) : Except MovieApiErrors A × Nat :=
  match op attempt with
  | .ok a => (.ok a, attempt + 1)
  | .error e =>
    match retriesLeft with
    | 0 => (.error e, attempt + 1)
    | r + 1 =>
      if retryWhile e then retryLoop op (attempt + 1) r
      else (.error e, attempt + 1)

/-- `withRetry` of `http-client.ts`: up to 3 retries (4 total attempts),
retrying only while `retryWhile` holds. -/
def withRetry {A : Type} (op : Nat → Except MovieApiErrors A) :
    Except MovieApiErrors A × Nat :=
  retryLoop op 0 3

/-! ## Backoff schedule (`withRetry` in `http-client.ts`)

`Schedule.exponential('100 millis', 2).pipe(Schedule.either(Schedule.spaced('10 seconds')))`.
`Schedule.exponential(base, factor)` waits `base * factor ^ n` before the
`n`-th recurrence (0-based); `Schedule.spaced(d)` waits `d` each time;
`Schedule.either` (union) recurs when either schedule recurs and waits the
minimum of the two delays.  All durations in milliseconds. -/

/-- Delay of `Schedule.exponential(base, factor)` before recurrence `n` (0-based). -/
def exponentialDelay (base factor n : Nat) : Nat :=
  base * factor ^ n

/-- Delay of `Schedule.spaced(d)` before any recurrence. -/
def spacedDelay (d _n : Nat) : Nat :=
  d

/-- Delay of the union (`Schedule.either`) of two schedules, both of which
always recur: the minimum of the two delays. -/
def eitherDelay (s₁ s₂ : Nat → Nat) (n : Nat) : Nat :=
  min (s₁ n) (s₂ n)

/-- The delay the retry schedule of `withRetry` imposes before recurrence `n`
(0-based): exponential from 100 ms doubling, unioned with 10 s spacing. -/
def retryScheduleDelay (n : Nat) : Nat :=
  eitherDelay (exponentialDelay 100 2) (spacedDelay 10000) n

/-- The wait `withRetry` schedules before the `n`-th retry (1-based): the
`n`-th retry is schedule recurrence `n - 1`. -/
def waitBeforeRetry (n : Nat) : Nat :=
  retryScheduleDelay (n - 1)

/-! ## Metrics emission of `executeJson` (`http-client.ts`)

`executeJson` pipes the (already retried) request through `Effect.tap`
(success only: log + increment `apiRequestCounter` + record duration) and
`Effect.tapError` (failure only: log + increment `apiErrorCounter` + record
duration).  Both taps sit *outside* `withRetry`, so they run once per logical
call.  The histogram is embedded as the list of recorded durations. -/

/-- The three metric instruments of `http-client.ts`; the histogram is the
list of duration samples recorded into it. -/
structure Metrics where
  apiRequestCounter : Nat
  apiErrorCounter : Nat
  durationUpdates : List Nat
deriving DecidableEq, Repr

/-- The success tap of `executeJson`: increment the request counter and
record the elapsed duration. -/
def tapSuccessMetrics (m : Metrics) (duration : Nat) : Metrics :=
  { m with
    apiRequestCounter := m.apiRequestCounter + 1
    durationUpdates := m.durationUpdates ++ [duration] }

/-- The error tap of `executeJson`: increment the error counter and record
the elapsed duration. -/
def tapErrorMetrics (m : Metrics) (duration : Nat) : Metrics :=
  { m with
    apiErrorCounter := m.apiErrorCounter + 1
    durationUpdates := m.durationUpdates ++ [duration] }

/-- One logical `executeJson` call: run the operation under `withRetry`,
then apply exactly one of the two taps to the final outcome.  `duration` is
the end-to-end elapsed time (`Date.now() - startTime`) at settlement.
Returns the outcome, the number of attempts made, and the updated metrics. -/
def executeJsonRun {A : Type} (op : Nat → Except MovieApiErrors A) (duration : Nat)
    (m : Metrics) : (Except MovieApiErrors A × Nat) × Metrics :=
  let (result, attempts) := withRetry op
  match result with
  | .ok a => ((.ok a, attempts), tapSuccessMetrics m duration)
  | .error e => ((.error e, attempts), tapErrorMetrics m duration)

/-! ## Pagination engine (`streaming.ts`)

`paginatedStream` is `Stream.paginateEffect` seeded with
`{ currentPage: startPage, pagesFetched: 0 }`, flattened chunk-wise, with
`Stream.take(maxResults)` applied when `maxResults` is set.

`Stream.paginateEffect` is demand-driven: each downstream pull runs the step
effect once (one `fetchPage` call), emits that page's `results` as one chunk
and either stops or moves to the next state.  `Stream.take k` pulls chunks
until it has accumulated `k` items; a chunk at least as long as the residual
demand is truncated and ends the stream without any further upstream pull.

The runners below make this pull discipline explicit.  `fuel` bounds the
number of pull steps (an arbitrary `fetchPage` can report ever-growing
`totalPages`, so an unbounded drain need not terminate); the `done` flag
records whether the stream finished within the fuel, and every result is
meaningful only on runs with `done = true` (which the theorems establish). -/

/-- The `PaginatedResponse<T>` shape contract of `streaming.ts`. -/
structure PaginatedResponse (T : Type) where
  page : Nat
  results : List T
  totalPages : Nat
  totalResults : Nat

/-- The `PaginationOptions` of `streaming.ts`.  `maxPages` is embedded as an
`Int` because JavaScript evaluates `maxPages - 1` without truncation (e.g.
`maxPages = 0` gives the bound `-1`). -/
structure PaginationOptions where
  startPage : Option Nat
  maxPages : Option Int
  maxResults : Option Nat

/-- `paginatedStream` with no options: `{}`. -/
def noOptions : PaginationOptions :=
  ⟨none, none, none⟩

/-- The internal `State` of `paginatedStream`. -/
structure PgState where
  currentPage : Nat
  pagesFetched : Nat

/-- One step of `Stream.paginateEffect` in `paginatedStream`: fetch the
current page, then stop when `currentPage >= totalPages` or when
`pagesFetched >= maxPages - 1`, else continue with the incremented state. -/
def pgStep {T : Type} (fetchPage : Nat → PaginatedResponse T) (maxPages : Option Int)
    (s : PgState) : List T × Option PgState :=
  let response := fetchPage s.currentPage
  let isLastPage : Bool := decide (response.totalPages ≤ s.currentPage)
  let hitMaxPages : Bool :=
    match maxPages with
    | none => false
    | some m => decide (m - 1 ≤ (s.pagesFetched : Int))
  if isLastPage || hitMaxPages then
    (response.results, none)
  else
    (response.results, some ⟨s.currentPage + 1, s.pagesFetched + 1⟩)

/-- Result of running a paginated stream: the items emitted, the page
numbers passed to `fetchPage` in call order, and whether the stream
finished within the fuel. -/
structure StreamRun (T : Type) where
  items : List T
  pages : List Nat
  done : Bool

/-- Drain the page stream completely (`Stream.runCollect` with no
`maxResults` bound): pull chunks until the pagination stops. -/
def drainRun {T : Type} (fetchPage : Nat → PaginatedResponse T) (maxPages : Option Int) :
    PgState → Nat → StreamRun T
  | _, 0 => ⟨[], [], false⟩
  | s, fuel + 1 =>
    match pgStep fetchPage maxPages s with
    | (chunk, none) => ⟨chunk, [s.currentPage], true⟩
    | (chunk, some s') =>
      let rest := drainRun fetchPage maxPages s' fuel
      ⟨chunk ++ rest.items, s.currentPage :: rest.pages, rest.done⟩

/-- Pull the page stream under a demand of `k` items (`Stream.take k` then
`Stream.runCollect`): a demand of `0` pulls nothing; otherwise pull one
chunk, stop (truncating) once the chunk covers the residual demand, and
keep pulling otherwise. -/
def pullRun {T : Type} (fetchPage : Nat → PaginatedResponse T) (maxPages : Option Int) :
    PgState → Nat → Nat → StreamRun T
  | _, 0, _ => ⟨[], [], true⟩
  | _, _ + 1, 0 => ⟨[], [], false⟩
  | s, k + 1, fuel + 1 =>
    match pgStep fetchPage maxPages s with
    | (chunk, none) => ⟨chunk.take (k + 1), [s.currentPage], true⟩
    | (chunk, some s') =>
      if k + 1 ≤ chunk.length then
        ⟨chunk.take (k + 1), [s.currentPage], true⟩
      else
        let rest := pullRun fetchPage maxPages s' (k + 1 - chunk.length) fuel
        ⟨chunk ++ rest.items, s.currentPage :: rest.pages, rest.done⟩

/-- The initial pagination state: `{ currentPage: startPage (default 1),
pagesFetched: 0 }`. -/
def initialState (options : PaginationOptions) : PgState :=
  ⟨options.startPage.getD 1, 0⟩

/-- Fully consuming `paginatedStream(fetchPage, options)`: when `maxResults`
is set the stream is `Stream.take(maxResults)` of the flattened page stream,
so a full consumption is a pull with that demand; otherwise it drains. -/
def streamDrain {T : Type} (fetchPage : Nat → PaginatedResponse T)
    (options : PaginationOptions) (fuel : Nat) : StreamRun T :=
  match options.maxResults with
  | some r => pullRun fetchPage options.maxPages (initialState options) r fuel
  | none => drainRun fetchPage options.maxPages (initialState options) fuel

/-- Consuming only the first `k` items of `paginatedStream(fetchPage,
options)` (`Stream.take k` composed on top; with `maxResults` also set the
effective demand is the smaller of the two). -/
def streamTake {T : Type} (fetchPage : Nat → PaginatedResponse T)
    (options : PaginationOptions) (k fuel : Nat) : StreamRun T :=
  let demand :=
    match options.maxResults with
    | some r => min k r
    | none => k
  pullRun fetchPage options.maxPages (initialState options) demand fuel

/-- `collectAllPages` of `streaming.ts`: drain the stream into a list. -/
def collectAllPages {T : Type} (fetchPage : Nat → PaginatedResponse T)
    (options : PaginationOptions) (fuel : Nat) : List T :=
  (streamDrain fetchPage options fuel).items

/-! ## Bounded-concurrency mapping (`mapPaginatedEffect` in `streaming.ts`)

`Stream.mapEffect(fn, { concurrency })` starts the per-item effects in item
order, keeps at most `concurrency` of them in flight, lets them *complete*
in any order, and re-emits the results in the original item order.

The machine below makes the nondeterminism explicit: an adversarial
`schedule` picks, at each completion event, which in-flight transformation
finishes next.  One completion event occurs per item, so running the machine
for `items.length` events processes everything.  The collected output is the
reorder buffer read out in item order, as `Stream.runCollect` observes it. -/

/-- State of the concurrent mapper: items `0 .. started - 1` have been
started, and `completedIdx` lists the indices whose transformation has
finished, in completion (temporal) order. -/
structure ConcState where
  started : Nat
  completedIdx : List Nat

/-- Indices started but not yet completed, in start order. -/
def inflightIdx (s : ConcState) : List Nat :=
  (List.range s.started).filter (fun i => decide (i ∉ s.completedIdx))

/-- Start transformations until the concurrency window `c` is full (or the
`n` items are exhausted): in-flight count is `started - completed`, so the
window is full at `started = completed + c`. -/
def fillWindow (n c : Nat) (s : ConcState) : ConcState :=
  { s with started := min n (s.completedIdx.length + c) }

/-- One completion event: fill the window, then the schedule pick `p`
selects an in-flight transformation to finish. -/
def concStep (n c p : Nat) (s : ConcState) : ConcState :=
  let s' := fillWindow n c s
  let fl := inflightIdx s'
  match fl with
  | [] => s'
  | _ :: _ => { s' with completedIdx := s'.completedIdx ++ [fl.getD (p % fl.length) 0] }

/-- Run `e` completion events of the concurrent mapper under an adversarial
schedule. -/
def concRunN (n c : Nat) (schedule : Nat → Nat) : Nat → ConcState
  | 0 => ⟨0, []⟩
  | e + 1 => concStep n c (schedule e) (concRunN n c schedule e)

/-- `Stream.mapEffect(fn, { concurrency: c })` followed by
`Stream.runCollect`, on a fully materialized item list: run one completion
event per item, then read the reorder buffer out in item order (an index is
emitted only once completed). -/
def mapEffectConcurrent {T R : Type} (items : List T) (fn : T → R) (c : Nat)
    (schedule : Nat → Nat) : List R :=
  let n := items.length
  let final := concRunN n c schedule n
  ((List.range n).filter (fun i => decide (i ∈ final.completedIdx))).filterMap
    (fun i => (items.map fn).get? i)

/-- `mapPaginatedEffect` of `streaming.ts`: the paginated stream, mapped
effectfully with a concurrency bound, collected into a list.  `fn` is the
(deterministic) result of the per-item transformation and `schedule` the
adversarial completion order of the in-flight transformations. -/
def mapPaginatedEffect {T R : Type} (fetchPage : Nat → PaginatedResponse T) (fn : T → R)
    (options : PaginationOptions) (concurrency : Nat) (schedule : Nat → Nat)
    (fuel : Nat) : List R :=
  mapEffectConcurrent (streamDrain fetchPage options fuel).items fn concurrency schedule

/-! ## Theorems -/

/-- The `while` predicate of `withRetry` holds exactly on the three
retryable tags. -/
lemma retryWhile_iff (e : MovieApiErrors) :
    retryWhile e = true ↔
      (e.tag = "NetworkError" ∨ e.tag = "RateLimitError" ∨ e.tag = "ServerError") := by
  cases e <;> simp [retryWhile, MovieApiErrors.tag]

/-- C1: the retry policy retries exactly on `NetworkError`, `RateLimitError`
and `ServerError` and terminates immediately on every other error kind: an
operation failing exactly twice with retryable kinds and then succeeding
returns the success value after exactly 3 attempts, and an operation whose
first failure is an `AuthenticationError`, `NotFoundError` or
`ValidationError` fails after exactly 1 attempt. -/
theorem C1_retry_eligibility :
    (∀ e : MovieApiErrors, retryWhile e = true ↔
      (e.tag = "NetworkError" ∨ e.tag = "RateLimitError" ∨ e.tag = "ServerError")) ∧
    (∀ (A : Type) (op : Nat → Except MovieApiErrors A) (e₀ e₁ : MovieApiErrors) (a : A),
      op 0 = .error e₀ → op 1 = .error e₁ → op 2 = .ok a →
      (e₀.tag = "NetworkError" ∨ e₀.tag = "RateLimitError" ∨ e₀.tag = "ServerError") →
      (e₁.tag = "NetworkError" ∨ e₁.tag = "RateLimitError" ∨ e₁.tag = "ServerError") →
      withRetry op = (.ok a, 3)) ∧
    (∀ (A : Type) (op : Nat → Except MovieApiErrors A) (e : MovieApiErrors),
      op 0 = .error e →
      (e.tag = "AuthenticationError" ∨ e.tag = "NotFoundError" ∨ e.tag = "ValidationError") →
      withRetry op = (.error e, 1)) := by
  refine ⟨retryWhile_iff, ?_, ?_⟩
  · intro A op e₀ e₁ a h0 h1 h2 ht0 ht1
    have r0 : retryWhile e₀ = true := (retryWhile_iff e₀).mpr ht0
    have r1 : retryWhile e₁ = true := (retryWhile_iff e₁).mpr ht1
    simp [withRetry, retryLoop, h0, h1, h2, r0, r1]
  · intro A op e h0 ht
    have r : retryWhile e = false := by
      cases hr : retryWhile e
      · rfl
      · exfalso
        rcases (retryWhile_iff e).mp hr with h | h | h <;>
          rcases ht with t | t | t <;> rw [t] at h <;> exact absurd h (by decide)
    simp [withRetry, retryLoop, h0, r]

/-- Witness for C1 at concrete operations: two `NetworkError` failures then
success gives the success value in 3 attempts; a first-attempt
`AuthenticationError` fails in 1 attempt. -/
theorem C1_retry_eligibility_witness :
    withRetry (fun k => if k < 2 then .error (.NetworkError "timeout" none none) else .ok 42) =
      (.ok 42, 3) ∧
    withRetry (fun _ => (.error (.AuthenticationError "bad key" none) : Except MovieApiErrors Nat)) =
      (.error (.AuthenticationError "bad key" none), 1) :=
  ⟨C1_retry_eligibility.2.1 Nat _ (.NetworkError "timeout" none none)
      (.NetworkError "timeout" none none) 42 rfl rfl rfl (Or.inl rfl) (Or.inl rfl),
    C1_retry_eligibility.2.2 Nat _ (.AuthenticationError "bad key" none) rfl (Or.inl rfl)⟩

/-- C6: an operation that fails with a `NetworkError` on every attempt is
attempted exactly 4 times (1 initial + 3 retries) and the caller then
observes the `NetworkError` failure. -/
theorem C6_retry_budget (A : Type) (op : Nat → Except MovieApiErrors A)
    (h : ∀ k, ∃ e, op k = .error e ∧ e.tag = "NetworkError") :
    (withRetry op).2 = 4 ∧ ∃ e, (withRetry op).1 = .error e ∧ e.tag = "NetworkError" := by
  obtain ⟨e0, h0, t0⟩ := h 0
  obtain ⟨e1, h1, t1⟩ := h 1
  obtain ⟨e2, h2, t2⟩ := h 2
  obtain ⟨e3, h3, t3⟩ := h 3
  have r0 : retryWhile e0 = true := (retryWhile_iff e0).mpr (Or.inl t0)
  have r1 : retryWhile e1 = true := (retryWhile_iff e1).mpr (Or.inl t1)
  have r2 : retryWhile e2 = true := (retryWhile_iff e2).mpr (Or.inl t2)
  refine ⟨?_, e3, ?_, t3⟩ <;>
    simp [withRetry, retryLoop, h0, h1, h2, h3, r0, r1, r2]

/-- Witness for C6 at a concretely always-failing operation. -/
theorem C6_retry_budget_witness :
    (withRetry (fun _ => (.error (.NetworkError "down" none none) : Except MovieApiErrors Nat))).2 = 4 ∧
    ∃ e,
      (withRetry (fun _ => (.error (.NetworkError "down" none none) : Except MovieApiErrors Nat))).1 =
        .error e ∧ e.tag = "NetworkError" :=
  C6_retry_budget Nat _ (fun _ => ⟨.NetworkError "down" none none, rfl, rfl⟩)

/-- C7: the wait before the `n`-th retry is `min(100ms * 2^(n-1), 10s)`;
in particular the first waits are 100ms, 200ms, 400ms, doubling, each capped
at 10 seconds. -/
theorem C7_backoff_schedule :
    (∀ n, 1 ≤ n → waitBeforeRetry n = min (100 * 2 ^ (n - 1)) 10000) ∧
    waitBeforeRetry 1 = 100 ∧ waitBeforeRetry 2 = 200 ∧ waitBeforeRetry 3 = 400 ∧
    (∀ n, waitBeforeRetry n ≤ 10000) := by
  refine ⟨?_, rfl, rfl, rfl, ?_⟩
  · intro n _
    simp [waitBeforeRetry, retryScheduleDelay, eitherDelay, exponentialDelay, spacedDelay]
  · intro n
    simp [waitBeforeRetry, retryScheduleDelay, eitherDelay, exponentialDelay, spacedDelay]

/-- Witness for C7: the 8th retry's exponential delay (12800ms) is capped to
10000ms. -/
theorem C7_backoff_schedule_witness :
    waitBeforeRetry 8 = min (100 * 2 ^ 7) 10000 :=
  C7_backoff_schedule.1 8 (by decide)

/-- C2 counterexample: the executor classifies a 429 response carrying a
`Retry-After` header of value 7 as a `RateLimitError` whose `retryAfter`
field is *not* 7 — `executeJson` passes no context to `fromHttpStatus`, so
the header value is never copied into the error. -/
theorem C2_counterexample :
    ({ status := 429, retryAfterHeader := some 7 } : HttpResponse).retryAfterHeader = some 7 ∧
    (executeJsonClassify { status := 429, retryAfterHeader := some 7 } "Too Many Requests").tag =
      "RateLimitError" ∧
    (executeJsonClassify { status := 429, retryAfterHeader := some 7 } "Too Many Requests").retryAfterField ≠
      some 7 := by
  refine ⟨rfl, rfl, ?_⟩
  intro h
  simp [executeJsonClassify, fromHttpStatus, ctxGet, MovieApiErrors.retryAfterField] at h

/-- C2 (amended): the executor classifies non-2xx statuses as: 404 yields
`NotFoundError` (resource/id `"unknown"`), 401 yields
`AuthenticationError`, 429 yields `RateLimitError` with `retryAfter` unset
regardless of any `Retry-After` header, and 500 yields `ServerError` with
`statusCode = 500`. -/
theorem C2_status_classification (message : String) (r : HttpResponse) :
    (r.status = 404 →
      executeJsonClassify r message = .NotFoundError message "unknown" (.str "unknown")) ∧
    (r.status = 401 →
      executeJsonClassify r message =
        .AuthenticationError ("Authentication failed: " ++ message) none) ∧
    (r.status = 429 →
      executeJsonClassify r message =
        .RateLimitError ("Rate limit exceeded: " ++ message) none none none none) ∧
    (r.status = 500 →
      executeJsonClassify r message = .ServerError ("Server error: " ++ message) 500 none) := by
  refine ⟨?_, ?_, ?_, ?_⟩ <;> intro h <;>
    simp [executeJsonClassify, fromHttpStatus, ctxGet, h]

/-- Witness for C2 (amended) at a concrete 404 response. -/
theorem C2_status_classification_witness :
    executeJsonClassify { status := 404, retryAfterHeader := none } "Not Found" =
      .NotFoundError "Not Found" "unknown" (.str "unknown") :=
  (C2_status_classification "Not Found" { status := 404, retryAfterHeader := none }).1 rfl

/-- C9 counterexample: a logical call that fails (here: immediately, with an
`AuthenticationError`) increments only the error counter and records one
duration; the request counter stays at 0 instead of being incremented once
per logical call as claimed. -/
theorem C9_counterexample :
    executeJsonRun (fun _ => (.error (.AuthenticationError "bad key" none) : Except MovieApiErrors Nat))
        5 { apiRequestCounter := 0, apiErrorCounter := 0, durationUpdates := [] } =
      ((.error (.AuthenticationError "bad key" none), 1),
        { apiRequestCounter := 0, apiErrorCounter := 1, durationUpdates := [5] }) :=
  rfl

/-- C9 (amended): each logical `executeJson` call records exactly one
duration sample regardless of how many retry attempts occur inside it; the
request counter is incremented once when the call succeeds (and the error
counter is untouched), while a failing call increments only the error
counter, leaving the request counter unchanged. -/
theorem C9_metrics_once (A : Type) (op : Nat → Except MovieApiErrors A) (d : Nat) (m : Metrics) :
    (executeJsonRun op d m).2.durationUpdates = m.durationUpdates ++ [d] ∧
    ((∃ a, (executeJsonRun op d m).1.1 = .ok a) →
      (executeJsonRun op d m).2.apiRequestCounter = m.apiRequestCounter + 1 ∧
      (executeJsonRun op d m).2.apiErrorCounter = m.apiErrorCounter) ∧
    ((∃ e, (executeJsonRun op d m).1.1 = .error e) →
      (executeJsonRun op d m).2.apiErrorCounter = m.apiErrorCounter + 1 ∧
      (executeJsonRun op d m).2.apiRequestCounter = m.apiRequestCounter) := by
  rcases hw : withRetry op with ⟨res, att⟩
  cases res <;>
    simp [executeJsonRun, hw, tapSuccessMetrics, tapErrorMetrics]

/-- Witness for C9 (amended) at a concrete successful call. -/
theorem C9_metrics_once_witness :
    (executeJsonRun (fun _ => (.ok 1 : Except MovieApiErrors Nat)) 5
        { apiRequestCounter := 0, apiErrorCounter := 0, durationUpdates := [] }).2.apiRequestCounter =
      0 + 1 :=
  ((C9_metrics_once Nat (fun _ => .ok 1) 5
      { apiRequestCounter := 0, apiErrorCounter := 0, durationUpdates := [] }).2.1 ⟨1, rfl⟩).1

/-- The chunk a pagination step emits is always the fetched page's
`results`, whichever way the continuation decision goes. -/
lemma pgStep_fst {T : Type} (fetchPage : Nat → PaginatedResponse T) (mp : Option Int)
    (s : PgState) : (pgStep fetchPage mp s).1 = (fetchPage s.currentPage).results := by
  simp only [pgStep]
  split <;> rfl

/-- A step whose page budget is exhausted (`pagesFetched >= maxPages - 1`)
emits the page and stops. -/
lemma pgStep_hitMax {T : Type} (fetchPage : Nat → PaginatedResponse T) (m : Int) (c j : Nat)
    (h : m - 1 ≤ (j : Int)) :
    pgStep fetchPage (some m) ⟨c, j⟩ = ((fetchPage c).results, none) := by
  simp [pgStep, h]

/-- A step on a non-terminal page with page budget remaining continues with
the incremented state. -/
lemma pgStep_continue_some {T : Type} (fetchPage : Nat → PaginatedResponse T) (m : Int)
    (c j : Nat) (h1 : c < (fetchPage c).totalPages) (h2 : (j : Int) < m - 1) :
    pgStep fetchPage (some m) ⟨c, j⟩ = ((fetchPage c).results, some ⟨c + 1, j + 1⟩) := by
  have hA : ¬((fetchPage c).totalPages ≤ c) := by omega
  have hB : ¬(m - 1 ≤ (j : Int)) := by omega
  simp [pgStep, hA, hB]

/-- A step on a non-terminal page with no `maxPages` bound continues with
the incremented state. -/
lemma pgStep_continue_none {T : Type} (fetchPage : Nat → PaginatedResponse T) (c j : Nat)
    (h1 : c < (fetchPage c).totalPages) :
    pgStep fetchPage none ⟨c, j⟩ = ((fetchPage c).results, some ⟨c + 1, j + 1⟩) := by
  have hA : ¬((fetchPage c).totalPages ≤ c) := by omega
  simp [pgStep, hA]

/-- Unfolding `drainRun` on a stopping step. -/
lemma drainRun_stop {T : Type} (fetchPage : Nat → PaginatedResponse T) (mp : Option Int)
    (c j : Nat) (chunk : List T) (f : Nat)
    (hstep : pgStep fetchPage mp ⟨c, j⟩ = (chunk, none)) :
    drainRun fetchPage mp ⟨c, j⟩ (f + 1) = ⟨chunk, [c], true⟩ := by
  simp [drainRun, hstep]

/-- Unfolding `drainRun` on a continuing step. -/
lemma drainRun_continue {T : Type} (fetchPage : Nat → PaginatedResponse T) (mp : Option Int)
    (c j : Nat) (chunk : List T) (s' : PgState) (f : Nat)
    (hstep : pgStep fetchPage mp ⟨c, j⟩ = (chunk, some s')) :
    drainRun fetchPage mp ⟨c, j⟩ (f + 1) =
      ⟨chunk ++ (drainRun fetchPage mp s' f).items,
        c :: (drainRun fetchPage mp s' f).pages,
        (drainRun fetchPage mp s' f).done⟩ := by
  simp [drainRun, hstep]

/-- Unfolding `pullRun` on a stopping step: the emitted chunk is truncated
to the demand and no further page is pulled. -/
lemma pullRun_stop_none {T : Type} (fetchPage : Nat → PaginatedResponse T) (mp : Option Int)
    (c j : Nat) (chunk : List T) (k fuel : Nat)
    (hstep : pgStep fetchPage mp ⟨c, j⟩ = (chunk, none)) (hk : 1 ≤ k) (hfuel : 1 ≤ fuel) :
    pullRun fetchPage mp ⟨c, j⟩ k fuel = ⟨chunk.take k, [c], true⟩ := by
  obtain ⟨k', rfl⟩ : ∃ k', k = k' + 1 := ⟨k - 1, by omega⟩
  obtain ⟨f, rfl⟩ : ∃ f, fuel = f + 1 := ⟨fuel - 1, by omega⟩
  simp [pullRun, hstep]

/-- Unfolding `pullRun` when the pulled chunk covers the residual demand:
the chunk is truncated and the stream ends without any further pull, even
though the pagination state could continue. -/
lemma pullRun_stop_enough {T : Type} (fetchPage : Nat → PaginatedResponse T) (mp : Option Int)
    (c j : Nat) (chunk : List T) (s' : PgState) (k fuel : Nat)
    (hstep : pgStep fetchPage mp ⟨c, j⟩ = (chunk, some s'))
    (hk1 : 1 ≤ k) (hk : k ≤ chunk.length) (hfuel : 1 ≤ fuel) :
    pullRun fetchPage mp ⟨c, j⟩ k fuel = ⟨chunk.take k, [c], true⟩ := by
  obtain ⟨k', rfl⟩ : ∃ k', k = k' + 1 := ⟨k - 1, by omega⟩
  obtain ⟨f, rfl⟩ : ∃ f, fuel = f + 1 := ⟨fuel - 1, by omega⟩
  simp [pullRun, hstep, hk]

/-- Unfolding `pullRun` when the pulled chunk is smaller than the residual
demand: emit the chunk and keep pulling with the demand reduced. -/
lemma pullRun_continue {T : Type} (fetchPage : Nat → PaginatedResponse T) (mp : Option Int)
    (c j : Nat) (chunk : List T) (s' : PgState) (k f : Nat)
    (hstep : pgStep fetchPage mp ⟨c, j⟩ = (chunk, some s')) (hk : chunk.length < k) :
    pullRun fetchPage mp ⟨c, j⟩ k (f + 1) =
      ⟨chunk ++ (pullRun fetchPage mp s' (k - chunk.length) f).items,
        c :: (pullRun fetchPage mp s' (k - chunk.length) f).pages,
        (pullRun fetchPage mp s' (k - chunk.length) f).done⟩ := by
  obtain ⟨k', rfl⟩ : ∃ k', k = k' + 1 := ⟨k - 1, by omega⟩
  have hnle : ¬(k' + 1 ≤ chunk.length) := by omega
  simp [pullRun, hstep, hnle]

/-- C3: the pagination engine is lazy: with default options, a consumer
that reads only the first `k` items, `1 ≤ k ≤ pageSize`, causes exactly one
`fetchPage` invocation (of the start page, 1) no matter how many total pages
the source reports, and a consumer that reads no items causes zero
invocations. -/
theorem C3_laziness :
    (∀ (T : Type) (fetchPage : Nat → PaginatedResponse T) (k fuel : Nat),
      1 ≤ k → k ≤ (fetchPage 1).results.length → 1 ≤ fuel →
      (streamTake fetchPage noOptions k fuel).pages = [1] ∧
      (streamTake fetchPage noOptions k fuel).items = (fetchPage 1).results.take k ∧
      (streamTake fetchPage noOptions k fuel).done = true) ∧
    (∀ (T : Type) (fetchPage : Nat → PaginatedResponse T) (fuel : Nat),
      (streamTake fetchPage noOptions 0 fuel).pages = [] ∧
      (streamTake fetchPage noOptions 0 fuel).items = []) := by
  constructor
  · intro T fetchPage k fuel hk1 hk2 hfuel
    have hTake : streamTake fetchPage noOptions k fuel = pullRun fetchPage none ⟨1, 0⟩ k fuel :=
      rfl
    rcases hstep : pgStep fetchPage none ⟨1, 0⟩ with ⟨chunk, next⟩
    have hchunk : chunk = (fetchPage 1).results := by
      have h := pgStep_fst fetchPage none ⟨1, 0⟩
      rw [hstep] at h
      exact h
    subst hchunk
    cases next with
    | none =>
      rw [hTake, pullRun_stop_none fetchPage none 1 0 _ k fuel hstep hk1 hfuel]
      exact ⟨rfl, rfl, rfl⟩
    | some s' =>
      rw [hTake, pullRun_stop_enough fetchPage none 1 0 _ s' k fuel hstep hk1 hk2 hfuel]
      exact ⟨rfl, rfl, rfl⟩
  · intro T fetchPage fuel
    constructor <;> simp [streamTake, noOptions, initialState, pullRun]

/-- Witness for C3: reading 2 items from a 2-items-per-page 100-page source
fetches exactly page 1; reading none fetches nothing. -/
theorem C3_laziness_witness :
    (streamTake (fun p => ⟨p, [10 * p, 10 * p + 1], 100, 200⟩) noOptions 2 1).pages = [1] ∧
    (streamTake (fun p => ⟨p, [10 * p, 10 * p + 1], 100, 200⟩) noOptions 0 1).pages = [] := by
  constructor
  · exact (C3_laziness.1 Nat (fun p => ⟨p, [10 * p, 10 * p + 1], 100, 200⟩) 2 1 (by decide)
      (by decide) (by decide)).1
  · exact (C3_laziness.2 Nat (fun p => ⟨p, [10 * p, 10 * p + 1], 100, 200⟩) 1).1

/-- `[c, c+1, ..., c+n]` splits off its head. -/
lemma range_map_add_succ (c n : Nat) :
    (List.range (n + 1)).map (fun i => c + i) =
      c :: (List.range n).map (fun i => c + 1 + i) := by
  have h : ((fun i => c + i) ∘ Nat.succ) = fun i => c + 1 + i := funext fun i => by
    simp only [Function.comp_apply]
    omega
  rw [List.range_succ_eq_map, List.map_cons, List.map_map, h]
  norm_num

/-- Under a `maxPages` bound of `m = j + d + 1` with `j` pages already
fetched, and responses reporting enough total pages, a full drain from page
`c` fetches exactly pages `c, c+1, ..., c+d` and finishes. -/
lemma drainRun_pages_maxPages {T : Type} (fetchPage : Nat → PaginatedResponse T) (m : Nat) :
    ∀ (d c j fuel : Nat), j + d + 1 = m → d + 1 ≤ fuel →
      (∀ i, i < d → c + i < (fetchPage (c + i)).totalPages) →
      (drainRun fetchPage (some (m : Int)) ⟨c, j⟩ fuel).pages =
        (List.range (d + 1)).map (fun i => c + i) ∧
      (drainRun fetchPage (some (m : Int)) ⟨c, j⟩ fuel).done = true := by
  intro d
  induction d with
  | zero =>
    intro c j fuel hm hfuel _
    obtain ⟨f, rfl⟩ : ∃ f, fuel = f + 1 := ⟨fuel - 1, by omega⟩
    have hstep := pgStep_hitMax fetchPage (m : Int) c j (by omega)
    rw [drainRun_stop fetchPage _ c j _ f hstep]
    constructor
    · simp [List.range_succ]
    · rfl
  | succ d ih =>
    intro c j fuel hm hfuel htp
    obtain ⟨f, rfl⟩ : ∃ f, fuel = f + 1 := ⟨fuel - 1, by omega⟩
    have h0 : c + 0 < (fetchPage (c + 0)).totalPages := htp 0 (by omega)
    have hstep := pgStep_continue_some fetchPage (m : Int) c j (by simpa using h0) (by omega)
    rw [drainRun_continue fetchPage _ c j _ _ f hstep]
    have ihr := ih (c + 1) (j + 1) f (by omega) (by omega) (fun i hi => by
      have h := htp (i + 1) (by omega)
      rw [show c + (i + 1) = c + 1 + i from by omega] at h
      exact h)
    refine ⟨?_, ihr.2⟩
    rw [range_map_add_succ c (d + 1)]
    simp only [List.cons.injEq]
    exact ⟨by trivial, ihr.1⟩

/-- C4: with `startPage = s` and `maxPages = m ≥ 1`, against responses
reporting enough total pages, a full drain invokes `fetchPage` for exactly
the pages `s, s+1, ..., s+m-1`, in that increasing order, and finishes. -/
theorem C4_page_bounds (T : Type) (fetchPage : Nat → PaginatedResponse T) (s m fuel : Nat)
    (hm : 1 ≤ m) (hfuel : m ≤ fuel)
    (htp : ∀ i, i < m → s + i < (fetchPage (s + i)).totalPages) :
    (streamDrain fetchPage ⟨some s, some (m : Int), none⟩ fuel).pages =
      (List.range m).map (fun i => s + i) ∧
    (streamDrain fetchPage ⟨some s, some (m : Int), none⟩ fuel).done = true := by
  have hDrain : streamDrain fetchPage ⟨some s, some (m : Int), none⟩ fuel =
      drainRun fetchPage (some (m : Int)) ⟨s, 0⟩ fuel := rfl
  obtain ⟨d, rfl⟩ : ∃ d, m = d + 1 := ⟨m - 1, by omega⟩
  rw [hDrain]
  exact drainRun_pages_maxPages fetchPage (d + 1) d s 0 fuel (by omega) (by omega)
    (fun i hi => htp i (by omega))

/-- Witness for C4: `startPage = 5`, `maxPages = 3` against a 100-page
source fetches exactly pages `[5, 6, 7]`. -/
theorem C4_page_bounds_witness :
    (streamDrain (fun p => ⟨p, [p], 100, 100⟩)
      ⟨some 5, some ((3 : Nat) : Int), none⟩ 3).pages = [5, 6, 7] ∧
    (streamDrain (fun p => ⟨p, [p], 100, 100⟩)
      ⟨some 5, some ((3 : Nat) : Int), none⟩ 3).done = true := by
  have h := C4_page_bounds Nat (fun p => ⟨p, [p], 100, 100⟩) 5 3 3 (by decide) (by decide)
    (fun i hi => by show 5 + i < 100; omega)
  refine ⟨?_, h.2⟩
  rw [h.1]
  rfl

/-- The demanded pull is the truncation of the unbounded drain: a pull with
demand `r` emits exactly the first `r` items the full pagination would. -/
lemma pullRun_items_take {T : Type} (fetchPage : Nat → PaginatedResponse T) (mp : Option Int) :
    ∀ (fuel : Nat) (s : PgState) (r : Nat),
      (pullRun fetchPage mp s r fuel).items = (drainRun fetchPage mp s fuel).items.take r := by
  intro fuel
  induction fuel with
  | zero =>
    intro s r
    cases r with
    | zero => simp [pullRun, drainRun]
    | succ k => simp [pullRun, drainRun]
  | succ f ih =>
    intro s r
    obtain ⟨c, j⟩ := s
    cases r with
    | zero => simp [pullRun]
    | succ k =>
      rcases hstep : pgStep fetchPage mp ⟨c, j⟩ with ⟨chunk, next⟩
      cases next with
      | none =>
        rw [pullRun_stop_none fetchPage mp c j chunk (k + 1) (f + 1) hstep (by omega) (by omega),
          drainRun_stop fetchPage mp c j chunk f hstep]
      | some s' =>
        by_cases hk : k + 1 ≤ chunk.length
        · rw [pullRun_stop_enough fetchPage mp c j chunk s' (k + 1) (f + 1) hstep (by omega) hk
            (by omega), drainRun_continue fetchPage mp c j chunk s' f hstep]
          dsimp only
          rw [List.take_append_eq_append_take, Nat.sub_eq_zero_of_le hk, List.take_zero,
            List.append_nil]
        · push_neg at hk
          rw [pullRun_continue fetchPage mp c j chunk s' (k + 1) f hstep hk,
            drainRun_continue fetchPage mp c j chunk s' f hstep]
          dsimp only
          rw [List.take_append_eq_append_take,
            List.take_of_length_le (by omega : chunk.length ≤ k + 1),
            ih s' (k + 1 - chunk.length)]

/-- The demanded pull fetches a prefix of the pages the unbounded drain
would fetch: the same pages, in the same order, and never a page the
pagination would not reach. -/
lemma pullRun_pages_prefix {T : Type} (fetchPage : Nat → PaginatedResponse T) (mp : Option Int) :
    ∀ (fuel : Nat) (s : PgState) (r : Nat),
      (pullRun fetchPage mp s r fuel).pages <+: (drainRun fetchPage mp s fuel).pages := by
  intro fuel
  induction fuel with
  | zero =>
    intro s r
    cases r with
    | zero => exact List.nil_prefix
    | succ k => exact List.nil_prefix
  | succ f ih =>
    intro s r
    obtain ⟨c, j⟩ := s
    cases r with
    | zero => exact List.nil_prefix
    | succ k =>
      rcases hstep : pgStep fetchPage mp ⟨c, j⟩ with ⟨chunk, next⟩
      cases next with
      | none =>
        rw [pullRun_stop_none fetchPage mp c j chunk (k + 1) (f + 1) hstep (by omega) (by omega),
          drainRun_stop fetchPage mp c j chunk f hstep]
      | some s' =>
        by_cases hk : k + 1 ≤ chunk.length
        · rw [pullRun_stop_enough fetchPage mp c j chunk s' (k + 1) (f + 1) hstep (by omega) hk
            (by omega), drainRun_continue fetchPage mp c j chunk s' f hstep]
          exact ⟨(drainRun fetchPage mp s' f).pages, rfl⟩
        · push_neg at hk
          rw [pullRun_continue fetchPage mp c j chunk s' (k + 1) f hstep hk,
            drainRun_continue fetchPage mp c j chunk s' f hstep]
          obtain ⟨t, ht⟩ := ih s' (k + 1 - chunk.length)
          refine ⟨t, ?_⟩
          show (c :: (pullRun fetchPage mp s' (k + 1 - chunk.length) f).pages) ++ t =
            c :: (drainRun fetchPage mp s' f).pages
          rw [List.cons_append, ht]

/-- A finished pull with positive demand fetched at least one page. -/
lemma pullRun_pages_ne_nil {T : Type} (fetchPage : Nat → PaginatedResponse T) (mp : Option Int)
    (s : PgState) (r fuel : Nat) (hr : 1 ≤ r)
    (hdone : (pullRun fetchPage mp s r fuel).done = true) :
    (pullRun fetchPage mp s r fuel).pages ≠ [] := by
  obtain ⟨k, rfl⟩ : ∃ k, r = k + 1 := ⟨r - 1, by omega⟩
  cases fuel with
  | zero => simp [pullRun] at hdone
  | succ f =>
    obtain ⟨c, j⟩ := s
    rcases hstep : pgStep fetchPage mp ⟨c, j⟩ with ⟨chunk, next⟩
    cases next with
    | none =>
      rw [pullRun_stop_none fetchPage mp c j chunk (k + 1) (f + 1) hstep (by omega) (by omega)]
      simp
    | some s' =>
      by_cases hk : k + 1 ≤ chunk.length
      · rw [pullRun_stop_enough fetchPage mp c j chunk s' (k + 1) (f + 1) hstep (by omega) hk
          (by omega)]
        simp
      · push_neg at hk
        rw [pullRun_continue fetchPage mp c j chunk s' (k + 1) f hstep hk]
        simp

/-- No unneeded fetch: when a pull with positive demand `r` finishes, the
pages it fetched before the last one supply strictly fewer than `r` items
(the drain of that many steps from the same state collects exactly those
pages' items), so the final fetch — and a fortiori every earlier one — was
needed. -/
lemma pullRun_pages_needed {T : Type} (fetchPage : Nat → PaginatedResponse T) (mp : Option Int) :
    ∀ (fuel : Nat) (s : PgState) (r : Nat), 1 ≤ r →
      (pullRun fetchPage mp s r fuel).done = true →
      (drainRun fetchPage mp s
          ((pullRun fetchPage mp s r fuel).pages.length - 1)).items.length < r := by
  intro fuel
  induction fuel with
  | zero =>
    intro s r hr hdone
    obtain ⟨k, rfl⟩ : ∃ k, r = k + 1 := ⟨r - 1, by omega⟩
    simp [pullRun] at hdone
  | succ f ih =>
    intro s r hr hdone
    obtain ⟨k, rfl⟩ : ∃ k, r = k + 1 := ⟨r - 1, by omega⟩
    obtain ⟨c, j⟩ := s
    rcases hstep : pgStep fetchPage mp ⟨c, j⟩ with ⟨chunk, next⟩
    cases next with
    | none =>
      rw [pullRun_stop_none fetchPage mp c j chunk (k + 1) (f + 1) hstep (by omega) (by omega)]
      simp [drainRun]
    | some s' =>
      by_cases hk : k + 1 ≤ chunk.length
      · rw [pullRun_stop_enough fetchPage mp c j chunk s' (k + 1) (f + 1) hstep (by omega) hk
          (by omega)]
        simp [drainRun]
      · push_neg at hk
        rw [pullRun_continue fetchPage mp c j chunk s' (k + 1) f hstep hk] at hdone ⊢
        have hr' : 1 ≤ k + 1 - chunk.length := by omega
        have hdone' : (pullRun fetchPage mp s' (k + 1 - chunk.length) f).done = true := hdone
        have hne := pullRun_pages_ne_nil fetchPage mp s' (k + 1 - chunk.length) f hr' hdone'
        have hlen0 : 0 < (pullRun fetchPage mp s' (k + 1 - chunk.length) f).pages.length :=
          List.length_pos.mpr hne
        have hih := ih s' (k + 1 - chunk.length) hr' hdone'
        dsimp only
        simp only [List.length_cons, Nat.add_sub_cancel]
        rw [show (pullRun fetchPage mp s' (k + 1 - chunk.length) f).pages.length =
          ((pullRun fetchPage mp s' (k + 1 - chunk.length) f).pages.length - 1) + 1 from by omega]
        rw [drainRun_continue fetchPage mp c j chunk s'
          ((pullRun fetchPage mp s' (k + 1 - chunk.length) f).pages.length - 1) hstep]
        dsimp only
        rw [List.length_append]
        omega

/-- The `maxResults = 7`, 3-item-page instance named by the claim. -/
lemma streamDrain_seven_of_threes {T : Type} (fetchPage : Nat → PaginatedResponse T)
    (fuel : Nat) (hfuel : 3 ≤ fuel)
    (hlen : ∀ p, (fetchPage p).results.length = 3)
    (htp : ∀ p, p < (fetchPage p).totalPages) :
    (streamDrain fetchPage ⟨none, none, some 7⟩ fuel).items.length = 7 ∧
    (streamDrain fetchPage ⟨none, none, some 7⟩ fuel).pages = [1, 2, 3] ∧
    (streamDrain fetchPage ⟨none, none, some 7⟩ fuel).done = true := by
  obtain ⟨f, rfl⟩ : ∃ f, fuel = f + 1 + 1 + 1 := ⟨fuel - 3, by omega⟩
  have hD : streamDrain fetchPage ⟨none, none, some 7⟩ (f + 1 + 1 + 1) =
      pullRun fetchPage none ⟨1, 0⟩ 7 (f + 1 + 1 + 1) := rfl
  have h1 := pgStep_continue_none fetchPage 1 0 (htp 1)
  have h2 := pgStep_continue_none fetchPage 2 1 (htp 2)
  have h3 := pgStep_continue_none fetchPage 3 2 (htp 3)
  have s3 : pullRun fetchPage none ⟨3, 2⟩ 1 (f + 1) =
      ⟨(fetchPage 3).results.take 1, [3], true⟩ :=
    pullRun_stop_enough fetchPage none 3 2 _ _ 1 (f + 1) h3 (by omega)
      (by rw [hlen]; omega) (by omega)
  have s2 : pullRun fetchPage none ⟨2, 1⟩ 4 (f + 1 + 1) =
      ⟨(fetchPage 2).results ++ (fetchPage 3).results.take 1, [2, 3], true⟩ := by
    rw [pullRun_continue fetchPage none 2 1 _ _ 4 (f + 1) h2 (by rw [hlen]; omega)]
    rw [show 4 - (fetchPage 2).results.length = 1 from by rw [hlen]]
    rw [s3]
  have s1 : pullRun fetchPage none ⟨1, 0⟩ 7 (f + 1 + 1 + 1) =
      ⟨(fetchPage 1).results ++ ((fetchPage 2).results ++ (fetchPage 3).results.take 1),
        [1, 2, 3], true⟩ := by
    rw [pullRun_continue fetchPage none 1 0 _ _ 7 (f + 1 + 1) h1 (by rw [hlen]; omega)]
    rw [show 7 - (fetchPage 1).results.length = 4 from by rw [hlen]]
    rw [s2]
  rw [hD, s1]
  refine ⟨?_, rfl, rfl⟩
  simp [hlen]

/-- C5: whenever `maxResults = r` is set (any start page, any page bound,
any page shapes), the produced sequence is exactly the first `r` items of
the unbounded sequence — so exactly `r` items whenever at least `r` are
available, possibly stopping mid-page — and the pages fetched are a prefix
of the pages the unbounded pagination would fetch whose strict initial part
supplies fewer than `r` items: no page beyond those needed is ever fetched.
In particular, `maxResults = 7` against 3-item pages yields exactly 7 items
and fetches exactly pages `[1, 2, 3]`. -/
theorem C5_maxResults (T : Type) (fetchPage : Nat → PaginatedResponse T)
    (sp : Option Nat) (mp : Option Int) (r fuel : Nat) :
    ((streamDrain fetchPage ⟨sp, mp, some r⟩ fuel).items =
      (streamDrain fetchPage ⟨sp, mp, none⟩ fuel).items.take r) ∧
    (r ≤ (streamDrain fetchPage ⟨sp, mp, none⟩ fuel).items.length →
      (streamDrain fetchPage ⟨sp, mp, some r⟩ fuel).items.length = r) ∧
    ((streamDrain fetchPage ⟨sp, mp, some r⟩ fuel).pages <+:
      (streamDrain fetchPage ⟨sp, mp, none⟩ fuel).pages) ∧
    (1 ≤ r → (streamDrain fetchPage ⟨sp, mp, some r⟩ fuel).done = true →
      (drainRun fetchPage mp (initialState ⟨sp, mp, none⟩)
          ((streamDrain fetchPage ⟨sp, mp, some r⟩ fuel).pages.length - 1)).items.length < r) ∧
    (sp = none → mp = none → r = 7 → 3 ≤ fuel →
      (∀ p, (fetchPage p).results.length = 3) →
      (∀ p, p < (fetchPage p).totalPages) →
      (streamDrain fetchPage ⟨sp, mp, some r⟩ fuel).items.length = 7 ∧
      (streamDrain fetchPage ⟨sp, mp, some r⟩ fuel).pages = [1, 2, 3] ∧
      (streamDrain fetchPage ⟨sp, mp, some r⟩ fuel).done = true) := by
  have hP : streamDrain fetchPage ⟨sp, mp, some r⟩ fuel =
      pullRun fetchPage mp ⟨sp.getD 1, 0⟩ r fuel := rfl
  have hD : streamDrain fetchPage ⟨sp, mp, none⟩ fuel =
      drainRun fetchPage mp ⟨sp.getD 1, 0⟩ fuel := rfl
  refine ⟨?_, ?_, ?_, ?_, ?_⟩
  · rw [hP, hD]
    exact pullRun_items_take fetchPage mp fuel _ r
  · intro hle
    rw [hD] at hle
    rw [hP, pullRun_items_take fetchPage mp fuel _ r, List.length_take]
    omega
  · rw [hP, hD]
    exact pullRun_pages_prefix fetchPage mp fuel _ r
  · intro hr hdone
    rw [hP] at hdone ⊢
    have hinit : initialState ⟨sp, mp, none⟩ = ⟨sp.getD 1, 0⟩ := rfl
    rw [hinit]
    exact pullRun_pages_needed fetchPage mp fuel _ r hr hdone
  · rintro rfl rfl rfl hfuel hlen htp
    exact streamDrain_seven_of_threes fetchPage fuel hfuel hlen htp

/-- Witness for C5: 3-item pages (`[3p, 3p+1, 3p+2]`, further pages always
reported): `maxResults = 7` gives 7 items over exactly pages `[1, 2, 3]`,
and at the exact-multiple boundary `maxResults = 6` gives exactly 6 items. -/
theorem C5_maxResults_witness :
    (streamDrain (fun p => ⟨p, [3 * p, 3 * p + 1, 3 * p + 2], p + 1, 300⟩)
      ⟨none, none, some 7⟩ 3).items.length = 7 ∧
    (streamDrain (fun p => ⟨p, [3 * p, 3 * p + 1, 3 * p + 2], p + 1, 300⟩)
      ⟨none, none, some 7⟩ 3).pages = [1, 2, 3] ∧
    (streamDrain (fun p => ⟨p, [3 * p, 3 * p + 1, 3 * p + 2], p + 1, 300⟩)
      ⟨none, none, some 6⟩ 3).items.length = 6 := by
  have h7 := (C5_maxResults Nat (fun p => ⟨p, [3 * p, 3 * p + 1, 3 * p + 2], p + 1, 300⟩)
    none none 7 3).2.2.2.2 rfl rfl rfl (by decide) (fun p => rfl) (fun p => Nat.lt_succ_self p)
  have h6 := (C5_maxResults Nat (fun p => ⟨p, [3 * p, 3 * p + 1, 3 * p + 2], p + 1, 300⟩)
    none none 6 3).2.1 (by decide)
  exact ⟨h7.1, h7.2.1, h6⟩

/-- C10: with any `maxPages <= 1` — including `maxPages = 0` — a full drain
still fetches exactly the start page once and yields that page's results:
the `pagesFetched >= maxPages - 1` bound is checked only after the first
fetch. -/
theorem C10_maxPages_zero (T : Type) (fetchPage : Nat → PaginatedResponse T)
    (s₀ : Nat) (m : Int) (fuel : Nat) (hm : m ≤ 1) (hfuel : 1 ≤ fuel) :
    (streamDrain fetchPage ⟨some s₀, some m, none⟩ fuel).pages = [s₀] ∧
    (streamDrain fetchPage ⟨some s₀, some m, none⟩ fuel).items = (fetchPage s₀).results ∧
    (streamDrain fetchPage ⟨some s₀, some m, none⟩ fuel).done = true := by
  obtain ⟨f, rfl⟩ : ∃ f, fuel = f + 1 := ⟨fuel - 1, by omega⟩
  refine ⟨?_, ?_, ?_⟩ <;>
    simp [streamDrain, initialState, drainRun, pgStep, hm]

/-- Witness for C10 at `maxPages = 0`. -/
theorem C10_maxPages_zero_witness :
    (streamDrain (fun p => ⟨p, [p], 5, 5⟩) ⟨some 1, some 0, none⟩ 1).pages = [1] ∧
    (streamDrain (fun p => ⟨p, [p], 5, 5⟩) ⟨some 1, some 0, none⟩ 1).items = [1] ∧
    (streamDrain (fun p => ⟨p, [p], 5, 5⟩) ⟨some 1, some 0, none⟩ 1).done = true :=
  C10_maxPages_zero Nat (fun p => ⟨p, [p], 5, 5⟩) 1 0 1 (by decide) (by decide)

/-- An adversarial pick, reduced modulo the list length, selects a member
of any nonempty list. -/
lemma getD_mod_mem (l : List Nat) (p : Nat) (h : l ≠ []) :
    l.getD (p % l.length) 0 ∈ l := by
  have hlen : 0 < l.length := List.length_pos.mpr h
  have hlt : p % l.length < l.length := Nat.mod_lt _ hlen
  rw [List.getD_eq_getElem?_getD, List.getElem?_eq_getElem hlt]
  exact List.getElem_mem hlt

/-- One completion event, started from a valid mapper state with work left,
appends exactly one fresh index (below `n`) to the completion list. -/
lemma concStep_spec (n c p : Nat) (s : ConcState) (hc : 1 ≤ c)
    (hnodup : s.completedIdx.Nodup) (hlt : ∀ i ∈ s.completedIdx, i < n)
    (hlen : s.completedIdx.length < n) :
    ∃ j, j < n ∧ j ∉ s.completedIdx ∧
      (concStep n c p s).completedIdx = s.completedIdx ++ [j] := by
  have hcomp : (fillWindow n c s).completedIdx = s.completedIdx := rfl
  have hstarted_le : (fillWindow n c s).started ≤ n := Nat.min_le_left _ _
  have hstarted_gt : s.completedIdx.length < (fillWindow n c s).started := by
    show s.completedIdx.length < min n (s.completedIdx.length + c)
    omega
  have hne : inflightIdx (fillWindow n c s) ≠ [] := by
    intro hnil
    have hsub : List.range (fillWindow n c s).started ⊆ s.completedIdx := by
      intro i hi
      by_contra hmem
      have hmemf : i ∈ inflightIdx (fillWindow n c s) := by
        simp only [inflightIdx, hcomp, List.mem_filter]
        exact ⟨hi, by simpa using hmem⟩
      rw [hnil] at hmemf
      exact absurd hmemf (List.not_mem_nil i)
    have hle := ((List.nodup_range _).subperm hsub).length_le
    rw [List.length_range] at hle
    omega
  have hmemj : (inflightIdx (fillWindow n c s)).getD
      (p % (inflightIdx (fillWindow n c s)).length) 0 ∈ inflightIdx (fillWindow n c s) :=
    getD_mod_mem _ p hne
  obtain ⟨j, hjdef⟩ : ∃ j, (inflightIdx (fillWindow n c s)).getD
      (p % (inflightIdx (fillWindow n c s)).length) 0 = j := ⟨_, rfl⟩
  rw [hjdef] at hmemj
  have hj1 : j ∈ List.range (fillWindow n c s).started ∧ j ∉ s.completedIdx := by
    have h := hmemj
    simp only [inflightIdx, hcomp, List.mem_filter, decide_eq_true_eq] at h
    exact ⟨h.1, h.2⟩
  refine ⟨j, lt_of_lt_of_le (List.mem_range.mp hj1.1) hstarted_le, hj1.2, ?_⟩
  rcases hfl : inflightIdx (fillWindow n c s) with _ | ⟨a, rest⟩
  · exact absurd hfl hne
  · simp only [concStep]
    rw [hjdef, hfl]
    rfl

/-- Invariant of the concurrent mapper run: after `e ≤ n` completion events
with a window of at least 1, the completion list is duplicate-free, within
range, and has exactly `e` entries. -/
lemma concRunN_spec (n c : Nat) (schedule : Nat → Nat) (hc : 1 ≤ c) :
    ∀ e, e ≤ n →
      (concRunN n c schedule e).completedIdx.Nodup ∧
      (∀ i ∈ (concRunN n c schedule e).completedIdx, i < n) ∧
      (concRunN n c schedule e).completedIdx.length = e := by
  intro e
  induction e with
  | zero => exact fun _ => ⟨List.nodup_nil, by simp [concRunN], rfl⟩
  | succ e ih =>
    intro he
    obtain ⟨hnd, hlt, hln⟩ := ih (by omega)
    obtain ⟨j, hjn, hjm, heq⟩ :=
      concStep_spec n c (schedule e) _ hc hnd hlt (by omega)
    have hrun : (concRunN n c schedule (e + 1)).completedIdx =
        (concRunN n c schedule e).completedIdx ++ [j] := heq
    refine ⟨?_, ?_, ?_⟩
    · rw [hrun, List.nodup_append]
      exact ⟨hnd, List.nodup_singleton j, fun a ha hb => by
        rw [List.mem_singleton] at hb
        exact hjm (hb ▸ ha)⟩
    · intro i hi
      rw [hrun, List.mem_append] at hi
      rcases hi with hi | hi
      · exact hlt i hi
      · rw [List.mem_singleton] at hi
        exact hi ▸ hjn
    · rw [hrun, List.length_append, hln]
      rfl

/-- After one completion event per item, every index has completed. -/
lemma concRunN_complete (n c : Nat) (schedule : Nat → Nat) (hc : 1 ≤ c) :
    ∀ i, i < n → i ∈ (concRunN n c schedule n).completedIdx := by
  obtain ⟨hnd, hlt, hln⟩ := concRunN_spec n c schedule hc n le_rfl
  have hsub : (concRunN n c schedule n).completedIdx ⊆ List.range n := fun i hi =>
    List.mem_range.mpr (hlt i hi)
  obtain ⟨l, hperm, hsubl⟩ := hnd.subperm hsub
  have hlenl : l.length = (List.range n).length := by
    rw [hperm.length_eq, hln, List.length_range]
  have hl : l = List.range n := hsubl.eq_of_length hlenl
  intro i hi
  exact hperm.mem_iff.mp (hl ▸ List.mem_range.mpr hi)

/-- Reading a full reorder buffer out in index order reproduces the list. -/
lemma filterMap_get_range {α : Type} (l : List α) :
    (List.range l.length).filterMap (fun i => l.get? i) = l := by
  induction l with
  | nil => simp
  | cons a t ih =>
    rw [List.length_cons, List.range_succ_eq_map, List.filterMap_cons]
    simp only [List.get?_cons_zero, List.filterMap_map]
    rw [show ((fun i => (a :: t).get? i) ∘ Nat.succ) = fun i => t.get? i from
      funext fun i => by simp]
    rw [ih]

/-- The concurrent mapper returns the transformed items in original order,
for every window size `c ≥ 1` and every adversarial completion schedule. -/
lemma mapEffectConcurrent_eq_map {T R : Type} (items : List T) (fn : T → R) (c : Nat)
    (schedule : Nat → Nat) (hc : 1 ≤ c) :
    mapEffectConcurrent items fn c schedule = items.map fn := by
  simp only [mapEffectConcurrent]
  have hfilter :
      (List.range items.length).filter
        (fun i => decide (i ∈ (concRunN items.length c schedule items.length).completedIdx)) =
      List.range items.length := by
    rw [List.filter_eq_self]
    intro i hi
    simpa using concRunN_complete items.length c schedule hc i (List.mem_range.mp hi)
  rw [hfilter]
  have hlen : items.length = (items.map fn).length := (List.length_map items fn).symm
  rw [hlen, filterMap_get_range]

/-- C8: `mapPaginatedEffect` preserves original item order for every
concurrency bound `c ≥ 1` and every internal completion order: its result
coincides with the sequential (`concurrency = 1`) run under any schedule. -/
theorem C8_order_preservation (T R : Type) (fetchPage : Nat → PaginatedResponse T)
    (fn : T → R) (options : PaginationOptions) (c : Nat)
    (schedule schedule' : Nat → Nat) (fuel : Nat) (hc : 1 ≤ c) :
    mapPaginatedEffect fetchPage fn options c schedule fuel =
      mapPaginatedEffect fetchPage fn options 1 schedule' fuel := by
  unfold mapPaginatedEffect
  rw [mapEffectConcurrent_eq_map _ _ _ _ hc, mapEffectConcurrent_eq_map _ _ _ _ le_rfl]

/-- Witness for C8: a 2-page, 2-items-per-page source mapped with
concurrency 3 under a nontrivial completion schedule equals the sequential
run. -/
theorem C8_order_preservation_witness :
    mapPaginatedEffect (fun p => ⟨p, [2 * p, 2 * p + 1], 2, 4⟩) (fun x => 10 * x)
        ⟨none, none, none⟩ 3 (fun e => e + 1) 2 =
      mapPaginatedEffect (fun p => ⟨p, [2 * p, 2 * p + 1], 2, 4⟩) (fun x => 10 * x)
        ⟨none, none, none⟩ 1 (fun _ => 0) 2 :=
  C8_order_preservation Nat Nat (fun p => ⟨p, [2 * p, 2 * p + 1], 2, 4⟩) (fun x => 10 * x)
    ⟨none, none, none⟩ 3 (fun e => e + 1) (fun _ => 0) 2 (by decide)

end MovieDb
